import Mathlib

/-!
Verification of the prediction-market arbitrage dashboard frontend.

The TypeScript sources under `dashboard-frontend/` are shallowly embedded:
JavaScript numbers are modelled as rationals (`ℚ`), `undefined`/`null`
optional fields as `Option`, the client's `Map<string, Opportunity>` as its
lookup function, and the stable `Array.prototype.sort` as `List.mergeSort`.
-/

/-- One outcome of a market (`lib/types.ts`, `Opportunity.outcomes` entries). -/
structure Outcome where
  name : String
  price : ℚ
  deriving Repr, DecidableEq

/-- An intra-market arbitrage opportunity (`lib/types.ts`).
`closeTime` models the epoch value `new Date(closeTime).getTime()` that the
sorting code derives from the ISO string; `none` is an absent close time. -/
structure Opportunity where
  marketId : String
  question : String
  sumPrices : ℚ
  edge : ℚ
  numOutcomes : ℕ
  liquidity : Option ℚ
  url : String
  updatedAt : String
  outcomes : Option (List Outcome)
  category : Option String
  closeTime : Option ℚ
  deriving Repr, DecidableEq

/-- Discriminant of a stream message (`lib/types.ts`, `SSEMessage.type`). -/
inductive SSEMessageType where
  | upsert
  | remove
  deriving Repr, DecidableEq

/-- A live-stream event (`lib/types.ts`, `SSEMessage`). -/
structure SSEMessage where
  type : SSEMessageType
  marketId : String
  opportunity : Option Opportunity
  deriving Repr, DecidableEq

/-- The client's `Map<string, Opportunity>` state, modelled by its lookup
function (`useOpportunities` keeps it in a `useState`). -/
def OppMap : Type := String → Option Opportunity

/-- `next.set(k, v)` on a copy of the map. -/
def OppMap.set (m : OppMap) (k : String) (v : Opportunity) : OppMap :=
  fun q => if q = k then some v else m q

/-- `next.delete(k)` on a copy of the map. -/
def OppMap.del (m : OppMap) (k : String) : OppMap :=
  fun q => if q = k then none else m q

/-- `new Map()` with no entries. -/
def OppMap.empty : OppMap := fun _ => none

/-- `new Map(initialData.map((opp) => [opp.marketId, opp]))`
(`hooks/use-opportunities.ts`, the `useState` initializer); with duplicate
ids the later entry wins, as in the `Map` constructor. -/
def initialOpportunities (initialData : List Opportunity) : OppMap :=
  initialData.foldl (fun m opp => m.set opp.marketId opp) OppMap.empty

/-- `handleSSEMessage` (`hooks/use-opportunities.ts` lines 22–36): an
`upsert` carrying an opportunity overwrites that market's entry, a `remove`
deletes it, and an `upsert` whose `opportunity` field is null falls through
both branches and leaves the state alone. -/
def handleSSEMessage (message : SSEMessage) (prev : OppMap) : OppMap :=
  match message.type, message.opportunity with
  | .upsert, some opp => prev.set message.marketId opp
  | .upsert, none => prev
  | .remove, _ => prev.del message.marketId

/-- Reconnection state of the `useSSE` hook: the value of
`reconnectAttemptsRef.current`. -/
structure SSEReconnectState where
  attempts : ℕ
  deriving Repr, DecidableEq

/-- `es.onopen` (`hooks/use-sse.ts` lines 18–21): a successful open resets
the attempt counter. -/
def onOpen (_s : SSEReconnectState) : SSEReconnectState :=
  { attempts := 0 }

/-- `es.onerror` (`hooks/use-sse.ts` lines 32–43): computes the backoff
delay `Math.min(1000 * Math.pow(2, attempts), 30000)` in milliseconds, then
increments the counter. Returns the scheduled delay and the next state. -/
def onError (s : SSEReconnectState) : ℕ × SSEReconnectState :=
  (min (1000 * 2 ^ s.attempts) 30000, { attempts := s.attempts + 1 })

/-- `k` consecutive error events starting from state `s`. -/
def iterateErrors (s : SSEReconnectState) : ℕ → SSEReconnectState
  | 0 => s
  | k + 1 => (onError (iterateErrors s k)).2

/-- Example opportunity used to instantiate hypotheses of proved theorems. -/
def oppEx : Opportunity :=
  { marketId := "m1", question := "Will it rain?", sumPrices := 95/100
    edge := 5/100, numOutcomes := 2, liquidity := some 250, url := "u"
    updatedAt := "t0"
    outcomes := some [⟨"Yes", 40/100⟩, ⟨"No", 55/100⟩]
    category := some "Weather", closeTime := some 1000 }

/-- A second example opportunity, under a different market id. -/
def oppEx2 : Opportunity :=
  { oppEx with marketId := "m2", question := "Other?", edge := 2/100
               sumPrices := 98/100, category := some "sports"
               liquidity := none, closeTime := none }

/-- Example client map holding `oppEx2` only. -/
def mapEx : OppMap := initialOpportunities [oppEx2]

/-- C1: an `upsert` with a non-null opportunity binds the message's market
id to exactly that opportunity, a `remove` leaves that market id unbound,
and in both cases every other key's entry is unchanged. -/
theorem handleSSEMessage_upsert_remove (prev : OppMap) (mid : String)
    (opp : Opportunity) (rest : Option Opportunity) :
    handleSSEMessage ⟨.upsert, mid, some opp⟩ prev mid = some opp ∧
    handleSSEMessage ⟨.remove, mid, rest⟩ prev mid = none ∧
    ∀ k, k ≠ mid →
      handleSSEMessage ⟨.upsert, mid, some opp⟩ prev k = prev k ∧
      handleSSEMessage ⟨.remove, mid, rest⟩ prev k = prev k := by
  refine ⟨by simp [handleSSEMessage, OppMap.set],
    by simp [handleSSEMessage, OppMap.del], fun k hk => ⟨?_, ?_⟩⟩ <;>
      simp [handleSSEMessage, OppMap.set, OppMap.del, hk]

/-- C1 witness: the characterization applied to a concrete map and message. -/
theorem handleSSEMessage_upsert_remove_witness :
    handleSSEMessage ⟨.upsert, "m1", some oppEx⟩ mapEx "m1" = some oppEx ∧
    handleSSEMessage ⟨.remove, "m1", none⟩ mapEx "m2" = mapEx "m2" :=
  ⟨(handleSSEMessage_upsert_remove mapEx "m1" oppEx none).1,
   ((handleSSEMessage_upsert_remove mapEx "m1" oppEx none).2.2 "m2"
      (by decide)).2⟩

/-- C5: processing the same stream message twice leaves the same state as
processing it once — upserts are idempotent overwrites and removes are
idempotent deletions. -/
theorem handleSSEMessage_idempotent (message : SSEMessage) (prev : OppMap) :
    handleSSEMessage message (handleSSEMessage message prev) =
      handleSSEMessage message prev := by
  obtain ⟨t, mid, opp⟩ := message
  cases t with
  | upsert =>
    cases opp with
    | none => rfl
    | some o =>
      funext k
      simp only [handleSSEMessage, OppMap.set]
      by_cases hk : k = mid <;> simp [hk]
  | remove =>
    funext k
    simp only [handleSSEMessage, OppMap.del]
    by_cases hk : k = mid <;> simp [hk]

/-- C6: an `upsert` whose opportunity field is null is skipped: the map is
returned completely unchanged. -/
theorem handleSSEMessage_null_upsert (prev : OppMap) (mid : String) :
    handleSSEMessage ⟨.upsert, mid, none⟩ prev = prev :=
  rfl

/-- C7: each error schedules a reconnect after
`min (1000 * 2 ^ attempts) 30000` milliseconds, where `attempts` counts the
consecutive failed reconnect attempts since the last successful open (the
counter is `k` after `k` consecutive errors following an open and resets to
`0` on every open); the delay never exceeds 30000 ms and is non-decreasing
across consecutive failures. -/
theorem sse_backoff_bounded_monotone (s : SSEReconnectState) :
    (onError s).1 = min (1000 * 2 ^ s.attempts) 30000 ∧
    (onError s).1 ≤ 30000 ∧
    (onError s).1 ≤ (onError (onError s).2).1 ∧
    (onOpen s).attempts = 0 ∧
    ∀ k, (iterateErrors (onOpen s) k).attempts = k := by
  refine ⟨rfl, min_le_right _ _, ?_, rfl, ?_⟩
  · refine min_le_min ?_ le_rfl
    have : (2 : ℕ) ^ s.attempts ≤ 2 ^ (s.attempts + 1) :=
      Nat.pow_le_pow_right (by norm_num) (Nat.le_succ _)
    exact Nat.mul_le_mul_left _ this
  · intro k
    induction k with
    | zero => rfl
    | succ n ih => simp [iterateErrors, onError, ih]

/-- `Opportunity & { profitAt10 ... profitAt10000 }` (`lib/types.ts`,
`OpportunityWithProfits`): the intersection type is embedded as the base
record plus the four added fields. -/
structure OpportunityWithProfits where
  toOpportunity : Opportunity
  profitAt10 : ℚ
  profitAt100 : ℚ
  profitAt1000 : ℚ
  profitAt10000 : ℚ
  deriving Repr, DecidableEq

/-- `calculateProfits` (`lib/utils/opportunity.ts`): spreads the input
opportunity and attaches the four profit projections. -/
def calculateProfits (opp : Opportunity) : OpportunityWithProfits :=
  let edge := opp.edge
  { toOpportunity := opp
    profitAt10 := edge * 10
    profitAt100 := edge * 100
    profitAt1000 := edge * 1000
    profitAt10000 := edge * 10000 }

/-- Field accessors of the base record lifted to the intersection type. -/
def OpportunityWithProfits.edge (o : OpportunityWithProfits) : ℚ :=
  o.toOpportunity.edge

def OpportunityWithProfits.liquidity (o : OpportunityWithProfits) : Option ℚ :=
  o.toOpportunity.liquidity

def OpportunityWithProfits.category (o : OpportunityWithProfits) : Option String :=
  o.toOpportunity.category

def OpportunityWithProfits.closeTime (o : OpportunityWithProfits) : Option ℚ :=
  o.toOpportunity.closeTime

/-- C9: `calculateProfits` keeps every field of the input opportunity
unchanged and the four added fields are the edge scaled by 10, 100, 1000
and 10000. -/
theorem calculateProfits_frame (opp : Opportunity) :
    (calculateProfits opp).toOpportunity = opp ∧
    (calculateProfits opp).profitAt10 = opp.edge * 10 ∧
    (calculateProfits opp).profitAt100 = opp.edge * 100 ∧
    (calculateProfits opp).profitAt1000 = opp.edge * 1000 ∧
    (calculateProfits opp).profitAt10000 = opp.edge * 10000 :=
  ⟨rfl, rfl, rfl, rfl, rfl⟩

/-- A normalized market document (spec section 3, backend data model). -/
structure MarketDocument where
  id : String
  question : String
  url : String
  category : Option String
  closeTime : Option ℚ
  outcomes : List Outcome
  liquidity : Option ℚ
  deriving Repr, DecidableEq

/-- Modelled from the spec: the backend EdgeComputer (`core/edge.py` is not
in the source tree) — "Opportunity: derived from a MarketDocument: sum of
outcome prices, edge = 1 − sum, outcome count, liquidity, timestamp of
computation". -/
def computeOpportunity (m : MarketDocument) (now : String) : Opportunity :=
  { marketId := m.id
    question := m.question
    sumPrices := (m.outcomes.map Outcome.price).sum
    edge := 1 - (m.outcomes.map Outcome.price).sum
    numOutcomes := m.outcomes.length
    liquidity := m.liquidity
    url := m.url
    updatedAt := now
    outcomes := some m.outcomes
    category := m.category
    closeTime := m.closeTime }

/-- Modelled from the spec: snapshot inclusion (`core/edge.py` filtering is
not in the source tree) — "an Opportunity with edge below a configured
minimum or liquidity below a configured minimum is excluded from the
snapshot". -/
def includedInSnapshot (minEdge minLiquidity : ℚ) (o : Opportunity) : Bool :=
  decide (minEdge ≤ o.edge) && decide (minLiquidity ≤ o.liquidity.getD 0)

/-- The rational value the market detail drawer formats as the underround
figure: `formatPercent(1 - opportunity.sumPrices)`
(`components/market-detail-drawer.tsx`). -/
def underroundDisplayed (o : Opportunity) : ℚ :=
  1 - o.sumPrices

/-- The scenario market: two outcomes priced 0.40 and 0.55. -/
def marketA : MarketDocument :=
  { id := "A", question := "Scenario market A", url := "uA"
    category := none, closeTime := none
    outcomes := [⟨"o1", 40/100⟩, ⟨"o2", 55/100⟩]
    liquidity := none }

/-- C4: a derived opportunity's `sumPrices` is the sum of the outcome
prices and its edge is `1 - sumPrices`; the drawer's underround figure is
`1 - sumPrices`; on the scenario market with prices 0.40 and 0.55 the sum
is 0.95, the edge 0.05, and with minimum edge 0.01 and minimum liquidity 0
the market is included in the snapshot. -/
theorem edge_is_one_minus_sum (m : MarketDocument) (now : String) :
    (computeOpportunity m now).sumPrices = (m.outcomes.map Outcome.price).sum ∧
    (computeOpportunity m now).edge = 1 - (computeOpportunity m now).sumPrices ∧
    underroundDisplayed (computeOpportunity m now) =
      1 - (computeOpportunity m now).sumPrices ∧
    (computeOpportunity marketA "t").sumPrices = 95/100 ∧
    (computeOpportunity marketA "t").edge = 5/100 ∧
    includedInSnapshot (1/100) 0 (computeOpportunity marketA "t") = true := by
  refine ⟨rfl, rfl, rfl, ?_, ?_, ?_⟩
  · norm_num [computeOpportunity, marketA]
  · norm_num [computeOpportunity, marketA]
  · simp only [includedInSnapshot, computeOpportunity, marketA, Option.getD,
      Bool.and_eq_true, decide_eq_true_eq]
    norm_num

/-- A bucket of the `EdgeDistribution` component; `max = ⊤` models the
code's `Number.POSITIVE_INFINITY`. -/
structure Bucket where
  name : String
  min : ℚ
  max : WithTop ℚ
  deriving DecidableEq

/-- The five buckets of the edge-distribution chart. -/
def edgeBuckets : List Bucket :=
  [⟨"0-1%", 0, ((1/100 : ℚ) : WithTop ℚ)⟩,
   ⟨"1-2%", 1/100, ((2/100 : ℚ) : WithTop ℚ)⟩,
   ⟨"2-3%", 2/100, ((3/100 : ℚ) : WithTop ℚ)⟩,
   ⟨"3-5%", 3/100, ((5/100 : ℚ) : WithTop ℚ)⟩,
   ⟨"5%+", 5/100, ⊤⟩]

/-- The bucket membership test `opp.edge >= b.min && opp.edge < b.max`. -/
def inBucket (edge : ℚ) (b : Bucket) : Bool :=
  decide (b.min ≤ edge) && decide ((edge : WithTop ℚ) < b.max)

/-- Index of the first bucket accepting the edge, mirroring
`buckets.find((b) => opp.edge >= b.min && opp.edge < b.max)`. -/
def findBucketIdx (edge : ℚ) : List Bucket → Option ℕ
  | [] => none
  | b :: bs =>
    if inBucket edge b then some 0 else (findBucketIdx edge bs).map (· + 1)

/-- The bucket (if any) an edge is counted in. -/
def bucketIdx (edge : ℚ) : Option ℕ :=
  findBucketIdx edge edgeBuckets

/-- `if (bucket) bucket.count++` for one opportunity. -/
def bumpBucket (counts : List ℕ) (edge : ℚ) : List ℕ :=
  match bucketIdx edge with
  | some i => counts.set i (counts.getD i 0 + 1)
  | none => counts

/-- Final bucket counts of the edge-distribution chart over a list of
opportunity edges. -/
def edgeDistributionCounts (edges : List ℚ) : List ℕ :=
  edges.foldl bumpBucket (List.replicate 5 0)

theorem findBucketIdx_lt_length (e : ℚ) :
    ∀ (l : List Bucket) (i : ℕ), findBucketIdx e l = some i → i < l.length := by
  intro l
  induction l with
  | nil => intro i h; simp [findBucketIdx] at h
  | cons b bs ih =>
    intro i h
    simp only [findBucketIdx] at h
    by_cases hb : inBucket e b
    · simp [hb] at h
      simp only [List.length_cons]
      omega
    · simp [hb, Option.map_eq_some'] at h
      obtain ⟨j, hj, rfl⟩ := h
      have := ih j hj
      simp only [List.length_cons]
      omega

theorem sum_set_getD_succ :
    ∀ (c : List ℕ) (i : ℕ), i < c.length →
      (c.set i (c.getD i 0 + 1)).sum = c.sum + 1 := by
  intro c
  induction c with
  | nil => intro i h; simp at h
  | cons a t ih =>
    intro i h
    cases i with
    | zero =>
      simp only [List.getD_cons_zero, List.set_cons_zero, List.sum_cons]
      omega
    | succ n =>
      have hn : n < t.length := by simpa using h
      have := ih n hn
      simp only [List.getD_cons_succ, List.set_cons_succ, List.sum_cons]
      omega

theorem bumpBucket_length (c : List ℕ) (e : ℚ) :
    (bumpBucket c e).length = c.length := by
  unfold bumpBucket
  cases h : bucketIdx e <;> simp

theorem inBucket_true_of (e : ℚ) (nm : String) (lo hi : ℚ)
    (h1 : lo ≤ e) (h2 : e < hi) :
    inBucket e ⟨nm, lo, (hi : WithTop ℚ)⟩ = true := by
  simp only [inBucket, Bool.and_eq_true, decide_eq_true_eq, WithTop.coe_lt_coe]
  exact ⟨h1, h2⟩

theorem inBucket_true_top (e : ℚ) (nm : String) (lo : ℚ) (h1 : lo ≤ e) :
    inBucket e ⟨nm, lo, ⊤⟩ = true := by
  simp only [inBucket, Bool.and_eq_true, decide_eq_true_eq, WithTop.coe_lt_top,
    and_true]
  exact h1

theorem inBucket_false_lo (e : ℚ) (nm : String) (lo : ℚ) (hi : WithTop ℚ)
    (h : e < lo) :
    inBucket e ⟨nm, lo, hi⟩ = false := by
  rw [Bool.eq_false_iff]
  intro htrue
  simp only [inBucket, Bool.and_eq_true, decide_eq_true_eq] at htrue
  exact absurd htrue.1 (not_le.mpr h)

theorem inBucket_false_hi (e : ℚ) (nm : String) (lo hi : ℚ) (h : hi ≤ e) :
    inBucket e ⟨nm, lo, (hi : WithTop ℚ)⟩ = false := by
  rw [Bool.eq_false_iff]
  intro htrue
  simp only [inBucket, Bool.and_eq_true, decide_eq_true_eq,
    WithTop.coe_lt_coe] at htrue
  exact absurd htrue.2 (not_lt.mpr h)

/-- Region-by-region evaluation of the bucket scan: a non-negative edge
matches exactly one bucket and is assigned an index, a negative edge
matches none. -/
theorem bucket_partition (e : ℚ) :
    (0 ≤ e → (edgeBuckets.filter (inBucket e)).length = 1 ∧
      ∃ i, bucketIdx e = some i) ∧
    (e < 0 → edgeBuckets.filter (inBucket e) = [] ∧ bucketIdx e = none) := by
  constructor
  · intro h
    rcases lt_or_le e ((100:ℚ)⁻¹) with h1 | h1
    · have t0 := inBucket_true_of e "0-1%" 0 ((100:ℚ)⁻¹) h h1
      have t1 := inBucket_false_lo e "1-2%" ((100:ℚ)⁻¹) ((2/100 : ℚ) : WithTop ℚ)
        h1
      have t2 := inBucket_false_lo e "2-3%" (2/100) ((3/100 : ℚ) : WithTop ℚ)
        (by linarith)
      have t3 := inBucket_false_lo e "3-5%" (3/100) ((5/100 : ℚ) : WithTop ℚ)
        (by linarith)
      have t4 := inBucket_false_lo e "5%+" (5/100) ⊤ (by linarith)
      refine ⟨?_, 0, ?_⟩ <;>
        simp [edgeBuckets, bucketIdx, findBucketIdx, t0, t1, t2, t3, t4]
    · rcases lt_or_le e (2/100) with h2 | h2
      · have t0 := inBucket_false_hi e "0-1%" 0 ((100:ℚ)⁻¹) h1
        have t1 := inBucket_true_of e "1-2%" ((100:ℚ)⁻¹) (2/100) h1 h2
        have t2 := inBucket_false_lo e "2-3%" (2/100) ((3/100 : ℚ) : WithTop ℚ)
          h2
        have t3 := inBucket_false_lo e "3-5%" (3/100) ((5/100 : ℚ) : WithTop ℚ)
          (by linarith)
        have t4 := inBucket_false_lo e "5%+" (5/100) ⊤ (by linarith)
        refine ⟨?_, 1, ?_⟩ <;>
          simp [edgeBuckets, bucketIdx, findBucketIdx, t0, t1, t2, t3, t4]
      · rcases lt_or_le e (3/100) with h3 | h3
        · have t0 := inBucket_false_hi e "0-1%" 0 ((100:ℚ)⁻¹) (by linarith)
          have t1 := inBucket_false_hi e "1-2%" ((100:ℚ)⁻¹) (2/100) h2
          have t2 := inBucket_true_of e "2-3%" (2/100) (3/100) h2 h3
          have t3 := inBucket_false_lo e "3-5%" (3/100)
            ((5/100 : ℚ) : WithTop ℚ) h3
          have t4 := inBucket_false_lo e "5%+" (5/100) ⊤ (by linarith)
          refine ⟨?_, 2, ?_⟩ <;>
            simp [edgeBuckets, bucketIdx, findBucketIdx, t0, t1, t2, t3, t4]
        · rcases lt_or_le e (5/100) with h4 | h4
          · have t0 := inBucket_false_hi e "0-1%" 0 ((100:ℚ)⁻¹) (by linarith)
            have t1 := inBucket_false_hi e "1-2%" ((100:ℚ)⁻¹) (2/100) (by linarith)
            have t2 := inBucket_false_hi e "2-3%" (2/100) (3/100) h3
            have t3 := inBucket_true_of e "3-5%" (3/100) (5/100) h3 h4
            have t4 := inBucket_false_lo e "5%+" (5/100) ⊤ h4
            refine ⟨?_, 3, ?_⟩ <;>
              simp [edgeBuckets, bucketIdx, findBucketIdx, t0, t1, t2, t3, t4]
          · have t0 := inBucket_false_hi e "0-1%" 0 ((100:ℚ)⁻¹) (by linarith)
            have t1 := inBucket_false_hi e "1-2%" ((100:ℚ)⁻¹) (2/100) (by linarith)
            have t2 := inBucket_false_hi e "2-3%" (2/100) (3/100) (by linarith)
            have t3 := inBucket_false_hi e "3-5%" (3/100) (5/100) h4
            have t4 := inBucket_true_top e "5%+" (5/100) h4
            refine ⟨?_, 4, ?_⟩ <;>
              simp [edgeBuckets, bucketIdx, findBucketIdx, t0, t1, t2, t3, t4]
  · intro h
    have t0 := inBucket_false_lo e "0-1%" 0 (((100:ℚ)⁻¹ : ℚ) : WithTop ℚ) h
    have t1 := inBucket_false_lo e "1-2%" ((100:ℚ)⁻¹) ((2/100 : ℚ) : WithTop ℚ)
      (by linarith)
    have t2 := inBucket_false_lo e "2-3%" (2/100) ((3/100 : ℚ) : WithTop ℚ)
      (by linarith)
    have t3 := inBucket_false_lo e "3-5%" (3/100) ((5/100 : ℚ) : WithTop ℚ)
      (by linarith)
    have t4 := inBucket_false_lo e "5%+" (5/100) ⊤ (by linarith)
    refine ⟨?_, ?_⟩ <;>
      simp [edgeBuckets, bucketIdx, findBucketIdx, t0, t1, t2, t3, t4]

theorem foldl_bumpBucket_sum :
    ∀ (edges : List ℚ) (counts : List ℕ), counts.length = 5 →
      (∀ e ∈ edges, 0 ≤ e) →
      (edges.foldl bumpBucket counts).sum = counts.sum + edges.length := by
  intro edges
  induction edges with
  | nil => intro counts _ _; simp
  | cons e es ih =>
    intro counts hlen hpos
    have he : 0 ≤ e := hpos e (by simp)
    obtain ⟨i, hi⟩ := ((bucket_partition e).1 he).2
    have hibound : i < counts.length := by
      rw [hlen]
      have := findBucketIdx_lt_length e edgeBuckets i hi
      simpa [edgeBuckets] using this
    have hbump : (bumpBucket counts e).sum = counts.sum + 1 := by
      simp only [bumpBucket, hi]
      exact sum_set_getD_succ counts i hibound
    have hblen : (bumpBucket counts e).length = 5 := by
      rw [bumpBucket_length, hlen]
    have := ih (bumpBucket counts e) hblen (fun x hx => hpos x (by simp [hx]))
    simp only [List.foldl_cons, this, hbump, List.length_cons]
    omega

/-- C10: over the five edge-distribution buckets, every non-negative edge
matches exactly one bucket (the half-open intervals are pairwise disjoint
and cover the non-negative ray), a negative edge matches no bucket, and
when every edge in the list is non-negative the bucket counts sum to the
list length. -/
theorem edge_distribution_complete (edges : List ℚ) :
    (∀ e : ℚ, 0 ≤ e → (edgeBuckets.filter (inBucket e)).length = 1) ∧
    (∀ e : ℚ, e < 0 → edgeBuckets.filter (inBucket e) = []) ∧
    ((∀ e ∈ edges, 0 ≤ e) →
      (edgeDistributionCounts edges).sum = edges.length) := by
  refine ⟨fun e he => ((bucket_partition e).1 he).1,
    fun e he => ((bucket_partition e).2 he).1, fun hpos => ?_⟩
  have h := foldl_bumpBucket_sum edges (List.replicate 5 0) (by simp) hpos
  simpa [edgeDistributionCounts] using h

/-- C10 witness: the count-sum clause applied to a concrete edge list. -/
theorem edge_distribution_complete_witness :
    (edgeDistributionCounts [0, 1, 2]).sum = ([0, 1, 2] : List ℚ).length :=
  (edge_distribution_complete [0, 1, 2]).2.2 (by decide)

/-- A settled response of the `/v1/opportunities` fetch: `ok` is `res.ok`
and `body` the parsed JSON payload. A rejected fetch (network error) is
modelled by passing `none` to `getOpportunities`. -/
structure FetchResponse where
  ok : Bool
  body : List Opportunity
  deriving Repr, DecidableEq

/-- `getOpportunities` (`lib/api.ts`): a rejected fetch propagates as an
error; a non-OK status becomes the thrown
`"Failed to fetch opportunities"`; otherwise the parsed body is returned. -/
def getOpportunities (response : Option FetchResponse) :
    Except String (List Opportunity) :=
  match response with
  | none => .error "network error"
  | some res =>
    if res.ok then .ok res.body else .error "Failed to fetch opportunities"

/-- `Page` (the server component): `initialData` falls back to `[]` when
`getOpportunities` throws, and is the fetched list otherwise. -/
def pageInitialData (response : Option FetchResponse) : List Opportunity :=
  match getOpportunities response with
  | .ok d => d
  | .error _ => []

/-- C8: when the initial fetch fails (network error or non-OK response),
the page renders with the empty initial list — never a partial one — and
the client map built from it is the empty map. -/
theorem page_empty_on_fetch_failure (response : Option FetchResponse)
    (e : String) (h : getOpportunities response = .error e) :
    pageInitialData response = [] ∧
    initialOpportunities (pageInitialData response) = OppMap.empty := by
  have h1 : pageInitialData response = [] := by
    simp [pageInitialData, h]
  refine ⟨h1, ?_⟩
  rw [h1]
  rfl

/-- C8 witness: a non-OK response yields the empty page state. -/
theorem page_empty_on_fetch_failure_witness :
    pageInitialData (some ⟨false, [oppEx]⟩) = [] ∧
    initialOpportunities (pageInitialData (some ⟨false, [oppEx]⟩)) =
      OppMap.empty :=
  page_empty_on_fetch_failure (some ⟨false, [oppEx]⟩)
    "Failed to fetch opportunities" rfl

/-- A cross-market match candidate (`lib/types.ts`, `CrossMatchCandidate`). -/
structure CrossMatchCandidate where
  marketId : String
  question : String
  similarity : ℚ
  category : Option String
  closeTime : Option String
  url : Option String
  timestamp : String
  deriving Repr, DecidableEq

/-- A base market together with its candidates (`CrossMatchGroup`). -/
structure CrossMatchGroup where
  baseMarketId : String
  baseQuestion : String
  baseCategory : Option String
  baseCloseTime : Option String
  baseUrl : Option String
  «matches» : List CrossMatchCandidate
  deriving Repr, DecidableEq

/-- One (base, candidate) row of the cross-opportunities table
(`CrossMatchRow`). -/
structure CrossMatchRow where
  baseMarketId : String
  baseQuestion : String
  baseCategory : Option String
  baseCloseTime : Option String
  baseUrl : Option String
  candidate : CrossMatchCandidate
  deriving Repr, DecidableEq

/-- The `flatMap` step of the `rows` memo in `useCrossOpportunities`
(`hooks/use-cross-opportunities.ts`); the `?? null` defaults are identities
in the `Option` model. -/
def flattenRows (groups : List CrossMatchGroup) : List CrossMatchRow :=
  groups.flatMap (fun group =>
    group.«matches».map (fun candidate =>
      { baseMarketId := group.baseMarketId
        baseQuestion := group.baseQuestion
        baseCategory := group.baseCategory
        baseCloseTime := group.baseCloseTime
        baseUrl := group.baseUrl
        candidate := candidate }))

/-- The sort comparator
`(a, b) => (b.candidate.similarity ?? 0) - (a.candidate.similarity ?? 0)`:
`a` may precede `b` exactly when the comparator value is ≤ 0, i.e. when
`b`'s similarity is at most `a`'s (`similarity` is non-nullable in the
type, so `?? 0` is the identity). -/
def rowLE (a b : CrossMatchRow) : Bool :=
  decide (b.candidate.similarity ≤ a.candidate.similarity)

/-- The `rows` memo: flatten all groups, then sort (stably, as
`Array.prototype.sort` is stable) descending by candidate similarity. -/
def crossRows (groups : List CrossMatchGroup) : List CrossMatchRow :=
  (flattenRows groups).mergeSort rowLE

/-- The ordering claimed by the spec for the presented rows: descending by
similarity, ties broken by candidate market identifier ascending. -/
def claimedOrdered (rs : List CrossMatchRow) : Prop :=
  rs.Pairwise (fun a b =>
    b.candidate.similarity < a.candidate.similarity ∨
    (a.candidate.similarity = b.candidate.similarity ∧
      a.candidate.marketId ≤ b.candidate.marketId))

/-- Candidate with the lexicographically larger id, similarity 1. -/
def candZ : CrossMatchCandidate :=
  ⟨"z", "question z", 1, none, none, none, "ts"⟩

/-- Candidate with the lexicographically smaller id, same similarity 1. -/
def candA : CrossMatchCandidate :=
  ⟨"a", "question a", 1, none, none, none, "ts"⟩

/-- A group listing the equal-similarity candidates in id-descending
order. -/
def groupEx : CrossMatchGroup :=
  ⟨"b", "question b", none, none, none, [candZ, candA]⟩

/-- The two rows obtained by flattening `groupEx`. -/
def rowZ : CrossMatchRow := ⟨"b", "question b", none, none, none, candZ⟩

def rowA : CrossMatchRow := ⟨"b", "question b", none, none, none, candA⟩

/-- C2 counterexample: on a group whose two candidates share similarity 1
but arrive in id-descending order, the presented rows keep that order (the
sort is stable and compares similarity only), so the claimed id-ascending
tie-break fails. -/
theorem crossRows_not_claimedOrdered : ¬ claimedOrdered (crossRows [groupEx]) := by
  intro hcl
  have hflat : flattenRows [groupEx] = [rowZ, rowA] := rfl
  have hpair : (flattenRows [groupEx]).Pairwise (rowLE · ·) := by
    rw [hflat]
    refine List.pairwise_cons.mpr ⟨?_, List.pairwise_singleton _ _⟩
    intro b hb
    rw [List.mem_singleton] at hb
    subst hb
    decide
  have hrows : crossRows [groupEx] = [rowZ, rowA] := by
    rw [crossRows, List.mergeSort_of_sorted hpair, hflat]
  rw [claimedOrdered, hrows] at hcl
  obtain ⟨hrel, -⟩ := List.pairwise_cons.mp hcl
  have h := hrel rowA (List.mem_singleton.mpr rfl)
  rcases h with hlt | ⟨-, hle⟩
  · exact absurd hlt (by norm_num [rowA, rowZ, candA, candZ])
  · rw [show rowZ.candidate.marketId = "z" from rfl,
      show rowA.candidate.marketId = "a" from rfl,
      String.le_iff_toList_le] at hle
    exact absurd hle (by decide)

/-- C2 (amended): the presented cross-market rows are a permutation of the
flattened (base, candidate) pairs, sorted in non-increasing order of
candidate similarity; rows with equal similarity keep their flattened
relative order (the sort is stable), with no candidate-id tie-break. -/
theorem crossRows_sorted_desc (groups : List CrossMatchGroup) :
    (crossRows groups).Pairwise (fun a b =>
      b.candidate.similarity ≤ a.candidate.similarity) ∧
    (crossRows groups).Perm (flattenRows groups) ∧
    ∀ a b : CrossMatchRow,
      [a, b].Sublist (flattenRows groups) →
      a.candidate.similarity = b.candidate.similarity →
      [a, b].Sublist (crossRows groups) := by
  have trans : ∀ a b c : CrossMatchRow, rowLE a b → rowLE b c → rowLE a c := by
    intro a b c hab hbc
    simp only [rowLE, decide_eq_true_eq] at *
    exact le_trans hbc hab
  have total : ∀ a b : CrossMatchRow, rowLE a b || rowLE b a := by
    intro a b
    simp only [rowLE, Bool.or_eq_true, decide_eq_true_eq]
    exact le_total _ _
  refine ⟨?_, List.mergeSort_perm _ _, ?_⟩
  · have h := List.sorted_mergeSort trans total (flattenRows groups)
    exact h.imp (fun hab => by simpa [rowLE] using hab)
  · intro a b hsub heq
    exact List.pair_sublist_mergeSort trans total
      (by simp [rowLE, heq.ge]) hsub

/-- C2 amended witness: the stability clause applied to the concrete
equal-similarity rows. -/
theorem crossRows_sorted_desc_witness :
    [rowZ, rowA].Sublist (crossRows [groupEx]) :=
  (crossRows_sorted_desc [groupEx]).2.2 rowZ rowA (List.Sublist.refl _) rfl

/-- Sort key selector of the filter state (`lib/types.ts`,
`FilterState.sortBy`). -/
inductive SortKey where
  | edge
  | profitAt1000
  | liquidity
  | closeTime
  deriving Repr, DecidableEq

/-- Sort direction of the filter state (`FilterState.sortOrder`). -/
inductive SortOrder where
  | asc
  | desc
  deriving Repr, DecidableEq

/-- The dashboard filter state (`lib/types.ts`, `FilterState`). -/
structure FilterState where
  minEdge : ℚ
  maxEdge : ℚ
  minLiquidity : ℚ
  category : String
  sortBy : SortKey
  sortOrder : SortOrder
  deriving Repr, DecidableEq

/-- The filter body of the `filteredAndSorted` memo
(`hooks/use-opportunities.ts`): drop an opportunity when its edge is out of
`[minEdge, maxEdge]`, when a positive `minLiquidity` exceeds its liquidity
(`opp.liquidity || 0`), or when a non-`"all"` category differs from its
lower-cased category (`opp.category?.toLowerCase()`). -/
def keepOpportunity (filters : FilterState) (opp : OpportunityWithProfits) :
    Bool :=
  if opp.edge < filters.minEdge ∨ opp.edge > filters.maxEdge then false
  else if 0 < filters.minLiquidity ∧
      opp.liquidity.getD 0 < filters.minLiquidity then false
  else if filters.category ≠ "all" ∧
      opp.category.map String.toLower ≠ some filters.category.toLower then
    false
  else true

/-- The comparator's lookup value `aVal`/`bVal` for the selected sort key;
a missing close time is `Number.POSITIVE_INFINITY`, i.e. `⊤`. -/
def sortVal (filters : FilterState) (o : OpportunityWithProfits) :
    WithTop ℚ :=
  match filters.sortBy with
  | .edge => (o.edge : WithTop ℚ)
  | .profitAt1000 => (o.profitAt1000 : WithTop ℚ)
  | .liquidity => ((o.liquidity.getD 0 : ℚ) : WithTop ℚ)
  | .closeTime =>
    match o.closeTime with
    | some t => (t : WithTop ℚ)
    | none => ⊤

/-- The comparator
`filters.sortOrder === "desc" ? bVal - aVal : aVal - bVal`: `a` may precede
`b` exactly when the comparator value is ≤ 0. -/
def oppLE (filters : FilterState) (a b : OpportunityWithProfits) : Bool :=
  match filters.sortOrder with
  | .desc => decide (sortVal filters b ≤ sortVal filters a)
  | .asc => decide (sortVal filters a ≤ sortVal filters b)

/-- The relation in which the presented list is sorted: key values
non-decreasing for `asc`, non-increasing for `desc`. -/
def sortedRel (filters : FilterState) (a b : OpportunityWithProfits) :
    Prop :=
  match filters.sortOrder with
  | .desc => sortVal filters b ≤ sortVal filters a
  | .asc => sortVal filters a ≤ sortVal filters b

/-- The `filteredAndSorted` memo (`hooks/use-opportunities.ts` lines
38–77) applied to the map's current values: attach profits, filter, then
sort (stably) by the selected key and order. -/
def filteredAndSorted (opps : List Opportunity) (filters : FilterState) :
    List OpportunityWithProfits :=
  ((opps.map calculateProfits).filter (keepOpportunity filters)).mergeSort
    (oppLE filters)

/-- The claim's description of which opportunities are kept: edge within
`[minEdge, maxEdge]`; liquidity (0 when absent) at least `minLiquidity`
whenever `minLiquidity > 0`; category equal to the filter category
case-insensitively unless the filter category is `"all"`. -/
def claimKeep (filters : FilterState) (o : OpportunityWithProfits) : Prop :=
  (filters.minEdge ≤ o.edge ∧ o.edge ≤ filters.maxEdge) ∧
  (0 < filters.minLiquidity → filters.minLiquidity ≤ o.liquidity.getD 0) ∧
  (filters.category ≠ "all" →
    o.category.map String.toLower = some filters.category.toLower)

theorem keepOpportunity_iff (filters : FilterState)
    (o : OpportunityWithProfits) :
    keepOpportunity filters o = true ↔ claimKeep filters o := by
  unfold keepOpportunity claimKeep
  split_ifs with h1 h2 h3
  · simp only [false_iff]
    rintro ⟨⟨hmin, hmax⟩, -, -⟩
    rcases h1 with h | h
    · exact absurd hmin (not_le.mpr h)
    · exact absurd hmax (not_le.mpr h)
  · simp only [false_iff]
    rintro ⟨-, hliq, -⟩
    exact absurd (hliq h2.1) (not_le.mpr h2.2)
  · simp only [false_iff]
    rintro ⟨-, -, hcat⟩
    exact h3.2 (hcat h3.1)
  · simp only [true_iff]
    push_neg at h1 h2 h3
    exact ⟨h1, h2, h3⟩

/-- C3: the presented list contains exactly the (profit-annotated) stored
opportunities whose edge lies in `[minEdge, maxEdge]`, whose liquidity
(0 when absent) meets a positive `minLiquidity` (no liquidity constraint
when it is 0), and whose category matches case-insensitively unless the
filter category is `"all"`; and the list is sorted by the selected key in
the selected order, a missing close time ranking as positive infinity. -/
theorem filteredAndSorted_spec (opps : List Opportunity)
    (filters : FilterState) :
    (∀ x, x ∈ filteredAndSorted opps filters ↔
      ∃ o ∈ opps, x = calculateProfits o ∧ claimKeep filters x) ∧
    (filteredAndSorted opps filters).Pairwise (sortedRel filters) := by
  constructor
  · intro x
    rw [filteredAndSorted, List.mem_mergeSort, List.mem_filter]
    constructor
    · rintro ⟨hx, hkeep⟩
      obtain ⟨o, ho, rfl⟩ := List.mem_map.mp hx
      exact ⟨o, ho, rfl, (keepOpportunity_iff filters _).mp hkeep⟩
    · rintro ⟨o, ho, rfl, hclaim⟩
      exact ⟨List.mem_map_of_mem _ ho,
        (keepOpportunity_iff filters _).mpr hclaim⟩
  · have trans : ∀ a b c : OpportunityWithProfits,
        oppLE filters a b → oppLE filters b c → oppLE filters a c := by
      intro a b c hab hbc
      cases hso : filters.sortOrder with
      | asc =>
        simp only [oppLE, hso, decide_eq_true_eq] at hab hbc ⊢
        exact le_trans hab hbc
      | desc =>
        simp only [oppLE, hso, decide_eq_true_eq] at hab hbc ⊢
        exact le_trans hbc hab
    have total : ∀ a b : OpportunityWithProfits,
        oppLE filters a b || oppLE filters b a := by
      intro a b
      cases hso : filters.sortOrder <;>
        · simp only [oppLE, hso, Bool.or_eq_true, decide_eq_true_eq]
          exact le_total _ _
    have h := List.sorted_mergeSort trans total
      ((opps.map calculateProfits).filter (keepOpportunity filters))
    exact h.imp (fun {a b} hab => by
      cases hso : filters.sortOrder <;>
        · simp only [oppLE, sortedRel, hso, decide_eq_true_eq] at hab ⊢
          exact hab)

/-- Opportunity with integral numeric fields, used in concrete instances. -/
def oppEx3 : Opportunity :=
  { marketId := "m3", question := "q3", sumPrices := 0, edge := 1
    numOutcomes := 2, liquidity := some 250, url := "u", updatedAt := "t"
    outcomes := none, category := some "Weather", closeTime := none }

/-- A concrete filter state: edge in `[0, 1]`, liquidity at least 1, any
category, sorted by edge descending. -/
def filterEx : FilterState := ⟨0, 1, 1, "all", .edge, .desc⟩

/-- C3 witness: the membership clause applied to a concrete store and
filter. -/
theorem filteredAndSorted_spec_witness :
    calculateProfits oppEx3 ∈ filteredAndSorted [oppEx3] filterEx :=
  ((filteredAndSorted_spec [oppEx3] filterEx).1 _).mpr
    ⟨oppEx3, by simp, rfl, by simp only [claimKeep]; decide⟩
